import Mathlib

set_option maxRecDepth 4000

/-!
Verification of qsiprep/interfaces/itk.py (ITK transform-file handling).

The Python source is shallowly embedded below.  Text files are modelled at
line granularity: a file's content is its list of lines (strings without
newline characters); reading a file followed by Python str.strip is modelled
by dropping empty boundary lines, which coincides with the source behaviour
for the well-formed contents quantified over in the theorems.  Byte strings
(subprocess output) are modelled as lists of characters.  External
collaborators (antsApplyTransforms, CompositeTransformUtil, antsTransformInfo,
nibabel image I/O, nipype's fname_presuffix) are modelled as opaque function
parameters or small stand-ins, as noted on each definition.
-/

namespace QsiprepItk

instance exceptDecEq {ε α : Type} [DecidableEq ε] [DecidableEq α] : DecidableEq (Except ε α)
  | .error a, .error b =>
    if h : a = b then .isTrue (by rw [h]) else .isFalse (by intro hc; cases hc; exact h rfl)
  | .error _, .ok _ => .isFalse (by intro hc; cases hc)
  | .ok _, .error _ => .isFalse (by intro hc; cases hc)
  | .ok a, .ok b =>
    if h : a = b then .isTrue (by rw [h]) else .isFalse (by intro hc; cases hc; exact h rfl)

/-! ## Generic text helpers (models of Python string and list primitives) -/

/-- Model of Python str.startswith restricted to the two lists of characters:
true when the first list is an initial segment of the second. -/
def leadsWith : List Char → List Char → Bool
  | [], _ => true
  | _ :: _, [] => false
  | p :: ps, c :: cs => p = c && leadsWith ps cs

/-- Model of Python text.count applied with the fixed pattern of source line
190, tfdata.count of the string hash-Transform: the number of positions where
the pattern matches.  Occurrences of this pattern can never overlap (a match
starts with its only hash character), so this equals Python's left-to-right
non-overlapping count on every input. -/
def countHashTransform : List Char → ℕ
  | [] => 0
  | c :: rest =>
    (if leadsWith "#Transform".data (c :: rest) then 1 else 0) + countHashTransform rest

/-- Decimal digits of a natural number, most significant first (accumulator
form, fuelled so that the recursion is structural; any fuel at least the
value itself is enough).  Models the rendering performed by the percent-d
format in Python. -/
def decDigitsGo : ℕ → ℕ → List Char → List Char
  | 0, n, acc => Char.ofNat (48 + n % 10) :: acc
  | fuel + 1, n, acc =>
    if n < 10 then Char.ofNat (48 + n % 10) :: acc
    else decDigitsGo fuel (n / 10) (Char.ofNat (48 + n % 10) :: acc)

/-- Decimal rendering of a natural number; models percent-d formatting of a
non-negative integer. -/
def natToDec (n : ℕ) : String := String.mk (decDigitsGo n n [])

/-- Value of a list of decimal digit characters, used to invert natToDec. -/
def decVal (l : List Char) : ℕ := l.foldl (fun a c => 10 * a + (c.toNat - 48)) 0

/-- Model of Python percent-0Nd zero-padded formatting. -/
def padZeros (w : ℕ) (n : ℕ) : String :=
  let s := natToDec n
  String.mk (List.replicate (w - s.length) '0') ++ s

/-- Model of reading a text file and applying str.strip, at line granularity:
empty boundary lines are removed.  (For the contents quantified over in the
theorems no boundary line is non-empty whitespace, so this agrees with the
source.) -/
def pyStripLines (ls : List String) : List String :=
  ((ls.dropWhile (· = "")).reverse.dropWhile (· = "")).reverse

/-- Model of Python list.index returning the position of the first exact
match, or none where the source would raise ValueError. -/
def pyListIndex (x : String) : List String → Option ℕ
  | [] => none
  | y :: ys => if y = x then some 0 else (pyListIndex x ys).map (· + 1)

/-- Sequential effectful map over a list, stopping at the first error: models
a Python for-loop (or list comprehension) whose body may raise. -/
def mapExcept {α β : Type} (f : α → Except String β) : List α → Except String (List β)
  | [] => .ok []
  | a :: as =>
    match f a with
    | .error e => .error e
    | .ok b =>
      match mapExcept f as with
      | .error e => .error e
      | .ok bs => .ok (b :: bs)

/-! ## CompositeTransformSplitter: DisassembleTransform, source lines 43-53 -/

/-- Fixed affine output path, source line 45. -/
def affineOutPath (cwd : String) : String := cwd ++ "/00_disassemble_AffineTransform.mat"

/-- Fixed displacement-field output path, source line 46. -/
def warpOutPath (cwd : String) : String :=
  cwd ++ "/01_disassemble_DisplacementFieldTransform.nii.gz"

/-- Model of DisassembleTransform, run-interface method, source lines 43-53.
The external CompositeTransformUtil call is modelled by its observable
after-effects: the post-call file-existence predicate and the tool's exit
status (which the source reads into out and err and never consults).  The
source raises when False is among the two existence checks, i.e. when either
expected output file is missing, and otherwise records the two paths in
affine-then-warp order. -/
def disassembleTransform (cwd : String) (fileExists : String → Bool) (exitStatus : ℤ) :
    Except String (List String) :=
  let affine_out := affineOutPath cwd
  let warp_out := warpOutPath cwd
  let _ := exitStatus
  if !fileExists affine_out || !fileExists warp_out then
    .error "unable to unpack composite transform"
  else
    .ok [affine_out, warp_out]

/-! ## RotationMatrixExtractor: rotation_matrix_from_transform, lines 233-249 -/

/-- Hexadecimal digit character, for the byte-repr model. -/
def hexDigitChar (n : ℕ) : Char := Char.ofNat (if n < 10 then 48 + n else 87 + n)

/-- Escape of one byte inside a Python bytes repr (single-quoted form). -/
def pyByteEscape (c : Char) : List Char :=
  if c = '\\' then ['\\', '\\']
  else if c = '\'' then ['\\', '\'']
  else if c = '\n' then ['\\', 'n']
  else if c = '\r' then ['\\', 'r']
  else if c = '\t' then ['\\', 't']
  else if 32 ≤ c.toNat ∧ c.toNat < 127 then [c]
  else ['\\', 'x', hexDigitChar (c.toNat / 16 % 16), hexDigitChar (c.toNat % 16)]

/-- Model of Python str applied to a bytes object: the bytes repr, a lowercase
b, the escaped bytes between single quotes.  (Python switches to double
quotes when the bytes contain a single quote but no double quote; the inputs
considered here contain no quote characters, where the single-quoted form is
exact.) -/
def pyBytesRepr (s : List Char) : List Char :=
  'b' :: '\'' :: (s.flatMap pyByteEscape) ++ ['\'']

/-- Model of Python text.split on the two-character sequence backslash-n used
at source line 241 (the source splits the repr text on a literal escape
sequence, not on real newlines). -/
def splitBackslashN : List Char → List (List Char)
  | [] => [[]]
  | '\\' :: 'n' :: rest2 => [] :: splitBackslashN rest2
  | c :: rest =>
    match splitBackslashN rest with
    | [] => [[c]]
    | l :: ls => (c :: l) :: ls

/-- Model of Python str.strip on a single line of characters. -/
def stripChars (s : List Char) : List Char :=
  ((s.dropWhile Char.isWhitespace).reverse.dropWhile Char.isWhitespace).reverse

/-- Model of Python str.split with no argument: split on runs of whitespace,
discarding empty fields. -/
def splitWhitespace (s : List Char) : List (List Char) :=
  ((s.splitOnP Char.isWhitespace).filter (fun l => !l.isEmpty))

/-- Decimal float literal parser modelling Python float on plain decimal
tokens (optional sign, digits, optional fraction); exponent and special forms
are not exercised by the diagnostic text modelled here.  Values are exact
rationals standing in for IEEE doubles; the matrix entries in the claims (0
and 1) are exactly representable either way. -/
def pyFloatQ (s : List Char) : Option ℚ :=
  let (sgn, rest) :=
    match s with
    | '-' :: r => ((-1 : ℚ), r)
    | '+' :: r => ((1 : ℚ), r)
    | r => ((1 : ℚ), r)
  let intPart := rest.takeWhile Char.isDigit
  let afterInt := rest.drop intPart.length
  let (fracPart, tail) :=
    match afterInt with
    | '.' :: r => (r.takeWhile Char.isDigit, (r.takeWhile Char.isDigit).length + 1)
    | _ => ([], 0)
  if afterInt.drop tail ≠ [] then none
  else if intPart = [] ∧ fracPart = [] then none
  else
    let iv : ℚ := decVal intPart
    let fv : ℚ := (decVal fracPart : ℚ) / ((10 : ℚ) ^ fracPart.length)
    some (sgn * (iv + fv))

/-- Indices of the lines equal to the marker, modelling the enumerate-and-
filter comprehension at source line 242. -/
def matrixMarkerIndices (lines : List (List Char)) : List ℕ :=
  (lines.enum.filterMap (fun p => if p.2 = "Matrix:".data then some p.1 else none))

/-- Model of rotation_matrix_from_transform, source lines 233-249.  The
external antsTransformInfo call is modelled by its raw standard output bytes.
The source converts those bytes with str (producing the bytes repr, never the
empty string), checks emptiness of that repr, splits it on the literal
two-character backslash-n sequence, strips each piece, locates lines equal to
the Matrix: marker, and parses the next three lines as whitespace-separated
floats. -/
def rotationMatrixFromTransform (transform : String) (out : List Char) :
    Except String (List (List ℚ)) :=
  let result := pyBytesRepr out
  if result.length = 0 then
    .error (transform ++ " returned no transform info")
  else
    let lines := (splitBackslashN result).map stripChars
    let start_lines := matrixMarkerIndices lines
    match start_lines with
    | [] => .error ("Unable to read rotation matrix from " ++ transform)
    | _ :: _ :: _ => .error ("Too many rotation matrices in " ++ transform)
    | [start_line] =>
      let matrix_lines := (lines.drop (start_line + 1)).take 3
      match mapExcept (fun l =>
          mapExcept (fun tok =>
            match pyFloatQ tok with
            | some q => Except.ok q
            | none => Except.error "ValueError: could not convert string to float")
            (splitWhitespace l)) matrix_lines with
      | .error e => .error e
      | .ok m => .ok m

/-! ## TransformFileFormat and TransformArranger: _arrange_xfms, lines 167-220 -/

/-- One embedded transform of a legacy ITK text container: the transform-type
line and the two parameter lines that follow the block marker. -/
structure TransformBlock where
  typeLine : String
  paramsLine : String
  fixedLine : String
deriving DecidableEq

/-- Data lines of a block, in file order. -/
def blockDataLines (b : TransformBlock) : List String :=
  [b.typeLine, b.paramsLine, b.fixedLine]

/-- A data line is clean when it is non-empty and contains no hash and no
newline character: the format stores numeric vectors and type names, and the
source's marker counting and marker lookup are only meaningful under this
assumption. -/
def CleanLine (l : String) : Prop := l ≠ "" ∧ '#' ∉ l.data ∧ '\n' ∉ l.data

/-- All three data lines of a block are clean. -/
def CleanBlock (b : TransformBlock) : Prop :=
  CleanLine b.typeLine ∧ CleanLine b.paramsLine ∧ CleanLine b.fixedLine

instance instDecCleanLine (l : String) : Decidable (CleanLine l) :=
  inferInstanceAs (Decidable (l ≠ "" ∧ '#' ∉ l.data ∧ '\n' ∉ l.data))

instance instDecCleanBlock (b : TransformBlock) : Decidable (CleanBlock b) :=
  inferInstanceAs (Decidable (CleanLine b.typeLine ∧ CleanLine b.paramsLine ∧
    CleanLine b.fixedLine))

/-- Format-version line of the legacy ITK text format, source line 172. -/
def insightV1 : String := "#Insight Transform File V1.0"

/-- Block marker line: the percent-d formatted hash-Transform tag of source
lines 172 and 211. -/
def markerLine (n : ℕ) : String := "#Transform " ++ natToDec n

/-- Header prepended to every standalone split artifact, source line 172. -/
def baseXform : List String := [insightV1, markerLine 0]

/-- Lines of the blocks section of a container whose first block carries
index j: marker line then three data lines, for each block in order. -/
def blocksLines : ℕ → List TransformBlock → List String
  | _, [] => []
  | j, b :: bs => markerLine j :: b.typeLine :: b.paramsLine :: b.fixedLine :: blocksLines (j + 1) bs

/-- Lines of a well-formed legacy ITK text container holding the given
blocks, indexed from zero. -/
def containerLines (bs : List TransformBlock) : List String :=
  insightV1 :: blocksLines 0 bs

/-- Marker-occurrence count over a list of lines: models text.count applied
to the newline-joined text (the pattern contains no newline, so occurrences
never span a line boundary). -/
def countTransformLines (ls : List String) : ℕ :=
  (ls.map (fun l => countHashTransform l.data)).sum

/-- Check of source line 185: the stripped text starts with the ITK header
tag; on the line model this inspects the first line. -/
def headStartsInsight (ls : List String) : Bool :=
  match ls with
  | [] => false
  | l :: _ => leadsWith "#Insight Transform File".data l.data

/-- Model of nipype's fname_presuffix (external library): builds the name of
a derived file from the input name, a suffix and a new directory. -/
def fnamePresuffix (fname suffix newpath : String) : String :=
  newpath ++ "/" ++ fname ++ suffix

/-- Split-artifact path for source position i and block index xi, modelling
the out_base callable of source lines 205-206. -/
def outBasePath (tf_file : String) (i : ℕ) (tmpName : String) (xi : ℕ) : String :=
  fnamePresuffix tf_file ("_pos-" ++ padZeros 3 i ++ "_xfm-" ++ padZeros 5 xi) tmpName

/-- One iteration of the split loop, source lines 209-216: locate the exact
marker line for block xi in the body (the container lines with the header
line removed), take the following three lines, and wrap them in the
standalone header plus a trailing blank line.  Returns the artifact path and
its content lines; a missing marker models the ValueError that list.index
would raise. -/
def splitOne (body : List String) (outBase : ℕ → String) (xi : ℕ) :
    Except String (String × List String) :=
  match pyListIndex (markerLine xi) body with
  | none => .error "ValueError: marker is not in list"
  | some startidx =>
    .ok (outBase xi, baseXform ++ ((body.drop (startidx + 1)).take 3) ++ [""])

/-- The whole split loop over block indices 0..nx-1. -/
def splitAll (body : List String) (outBase : ℕ → String) (nx : ℕ) :
    Except String (List (String × List String)) :=
  mapExcept (splitOne body outBase) (List.range nx)

/-- One transform source handed to _arrange_xfms: its path, the mime type
sniffed by mimetypes.guess_type (an external, extension-based lookup), and
its content lines. -/
structure XfmSource where
  path : String
  mimeType : Option String
  lines : List String
deriving DecidableEq

/-- Classification cascade of source lines 177-198 collapsed to a Boolean:
a source is constant-case when it is not sniffed as plain text, or its
stripped content does not start with the ITK header tag, or the marker count
is exactly one. -/
def constantCase (s : XfmSource) : Bool :=
  decide (s.mimeType ≠ some "text/plain") ||
  !headStartsInsight (pyStripLines s.lines) ||
  (countTransformLines (pyStripLines s.lines) == 1)

/-- The count-mismatch message raised at source lines 200-202. -/
def mismatchMsg (found expected : ℕ) : String :=
  "Number of transforms (" ++ natToDec found ++ ") found in the ITK file" ++
    " does not match the number of input image files (" ++ natToDec expected ++ ")."

/-- Loop body of _arrange_xfms for the source at chain position i, source
lines 175-217: emit the row of per-volume artifact paths for this source
together with the split files it wrote (path and content lines). -/
def processSource (num_files : ℕ) (tmpName : String) (i : ℕ) (s : XfmSource) :
    Except String (List String × List (String × List String)) :=
  if s.mimeType ≠ some "text/plain" then
    .ok (List.replicate num_files s.path, [])
  else
    let tfdata := pyStripLines s.lines
    if !headStartsInsight tfdata then
      .ok (List.replicate num_files s.path, [])
    else
      let nxforms := countTransformLines tfdata
      let body := tfdata.tail
      if nxforms = 1 then
        .ok (List.replicate num_files s.path, [])
      else if nxforms ≠ num_files then
        .error (mismatchMsg nxforms num_files)
      else
        match splitAll body (outBasePath s.path i tmpName) nxforms with
        | .error e => .error e
        | .ok pairs => .ok (pairs.map Prod.fst, pairs)

/-- Fuelled worker for the transpose zip-star idiom: one step strips the head
of every row while all rows are non-empty.  The iteration count of the real
zip is the length of the shortest row, so any fuel at least the length of
the first row is exact. -/
def pyZipGo : ℕ → List (List String) → List (List String)
  | _, [] => []
  | 0, _ :: _ => []
  | fuel + 1, l :: ls =>
    if (l :: ls).all (fun x => !x.isEmpty) then
      ((l :: ls).map (fun x => x.headD "")) :: pyZipGo fuel ((l :: ls).map List.tail)
    else []

/-- Model of the Python transpose zip-star idiom of source line 220: produce
tuples of first elements, second elements, and so on, stopping at the
shortest row; with no rows at all the result is empty. -/
def pyZip (ls : List (List String)) : List (List String) :=
  pyZipGo ((ls.headD []).length) ls

/-- Recursive worker of _arrange_xfms: process the remaining sources in
order, accumulating the per-source rows and the split files written so far;
on success transpose the rows, on failure surface the error together with
the files already written (the source raises mid-loop, leaving earlier
artifacts on disk). -/
def arrangeGo (num_files : ℕ) (tmpName : String) :
    ℕ → List XfmSource → List (List String) → List (String × List String) →
    Except String (List (List String)) × List (String × List String)
  | _, [], rows, writes => (.ok (pyZip rows), writes)
  | i, s :: rest, rows, writes =>
    match processSource num_files tmpName i s with
    | .error e => (.error e, writes)
    | .ok (row, ws) => arrangeGo num_files tmpName (i + 1) rest (rows ++ [row]) (writes ++ ws)

/-- Model of _arrange_xfms, source lines 167-220: returns the volume-indexed
assignment table (or the raised error) together with every split artifact
written (path and content lines). -/
def arrangeXfms (transforms : List XfmSource) (num_files : ℕ) (tmpName : String) :
    Except String (List (List String)) × List (String × List String) :=
  arrangeGo num_files tmpName 0 transforms [] []

/-- Marker lookup of the re-parse step: model of the index-then-slice
extraction (source lines 211-212) applied to the body of a parsed file. -/
def extractBlockLines (body : List String) (j : ℕ) : Option (List String) :=
  match pyListIndex (markerLine j) body with
  | none => none
  | some idx => some ((body.drop (idx + 1)).take 3)

/-- Standalone serialization of one block, as materialized by the split loop:
version line, marker zero, the three data lines, trailing blank line. -/
def artifactLines (b : TransformBlock) : List String :=
  [insightV1, markerLine 0, b.typeLine, b.paramsLine, b.fixedLine, ""]

/-! ## VolumeTransformExecutor: MultiApplyTransforms and _applytfms, lines 56-164 -/

/-- Voxel image as far as this core observes it: a data-type code and an
opaque payload (the resampled voxels, produced by the external tool). -/
structure Image where
  dtype : ℕ
  payload : ℕ
deriving DecidableEq

/-- Options reaching each job. The source passes a shared option dictionary;
it is modelled as an immutable structure (the only key a job removes,
copy_dtype, affects only the dtype-coercion step, never the output path or
command line). All other apply-transform options are opaque and ride inside
the external-call parameter. -/
structure IfArgs where
  copy_dtype : Bool
deriving DecidableEq

/-- Result of one per-volume job as returned by _applytfms: the output path
and command line (the tuple the source returns), plus the observable
file-system effect on the output file (final image content and whether the
job re-persisted the file after the external call). -/
structure JobOut where
  out_file : String
  cmdline : String
  finalImage : Image
  rewritten : Bool
deriving DecidableEq

/-- Model of _applytfms, source lines 134-164.  The external
antsApplyTransforms invocation is the function parameter ext: given the input
path, the transform chain element and the output path it either fails or
yields the image it wrote at the output path together with the invocation
command line.  inDtype models nibabel's get_data_dtype on the input file.
When copy_dtype is set and the dtypes differ, the output image is coerced to
the input dtype and written again; otherwise the file produced by the
external call is left untouched. -/
def applytfms {X : Type} (ext : String → X → String → Except String (Image × String))
    (inDtype : String → ℕ) (args : String × X × IfArgs × ℕ × String) :
    Except String JobOut :=
  let (in_file, in_xform, ifargs, index, newpath) := args
  let out_file := fnamePresuffix in_file ("_xform-" ++ padZeros 5 index) newpath
  let copy_dtype := ifargs.copy_dtype
  match ext in_file in_xform out_file with
  | .error e => .error e
  | .ok (nii, cmdline) =>
    if copy_dtype then
      let in_dtype := inDtype in_file
      if in_dtype ≠ nii.dtype then
        .ok ⟨out_file, cmdline, ⟨in_dtype, nii.payload⟩, true⟩
      else
        .ok ⟨out_file, cmdline, nii, false⟩
    else
      .ok ⟨out_file, cmdline, nii, false⟩

/-- Dispatch mode chosen by the executor. -/
inductive ExecMode where
  | sequential
  | pooled (maxWorkers : Option ℤ)
deriving DecidableEq

/-- Mode selection of source lines 106-116: a worker count below one is
replaced by None, a count of exactly one selects the in-line sequential
comprehension, anything else builds a ThreadPoolExecutor with the (possibly
absent) bound. -/
def execPlan (numThreads : ℤ) : ExecMode :=
  let nt : Option ℤ := if numThreads < 1 then none else some numThreads
  if nt = some 1 then .sequential else .pooled nt

/-- Slot table of a worker pool: jobs are evaluated in the given completion
order, each result landing in the slot of its submission index; the output is
then read back in submission-index order (the semantics of pool.map).
Indices outside the job list leave their slot empty. -/
def poolMap {α β : Type} (f : α → β) (jobs : List α) (order : List ℕ) : List (Option β) :=
  let tbl : ℕ → Option β :=
    order.foldl (fun t i => fun k => if k = i then (jobs.get? i).map f else t k) (fun _ => none)
  (List.range jobs.length).map tbl

/-- Reading the pool results in submission order: an unfilled slot means a
job never completed (impossible for a completion order covering all
indices); a stored exception is re-raised at its submission index, as
iterating pool.map does. -/
def collectSlots {β : Type} : List (Option (Except String β)) → Except String (List β)
  | [] => .ok []
  | none :: _ => .error "job never completed"
  | some (.error e) :: _ => .error e
  | some (.ok b) :: rest =>
    match collectSlots rest with
    | .error e => .error e
    | .ok bs => .ok (b :: bs)

/-- Job dispatch, source lines 109-120: the sequential comprehension runs the
jobs in submission order; the pool evaluates them in the scheduler's
completion order and gathers results by submission index.  The second
component is the order in which jobs started executing. -/
def dispatch {α : Type} (f : α → Except String JobOut) (jobs : List α) (mode : ExecMode)
    (order : List ℕ) : Except String (List JobOut) × List ℕ :=
  match mode with
  | .sequential => (mapExcept f jobs, List.range jobs.length)
  | .pooled _ => (collectSlots (poolMap f jobs order), order)

/-- Observable outcome of one _run_interface call. -/
structure RunOutcome where
  result : Except String (List String × Option String)
  cleanedUp : Bool
  mode : ExecMode
  trace : List ℕ
deriving DecidableEq

/-- Model of MultiApplyTransforms._run_interface, source lines 81-131.
The temporary directory is created up front (line 99); the length assertion
(line 103) and any job failure raise out of the method before the cleanup
call (line 121), so cleanedUp records whether that call was reached.  Jobs
are the enumerated zip of input files and per-volume transform chains.  With
the sequential plan they run in index order; with a pool they run in the
completion order given by the scheduler parameter, and their results are
gathered by submission index.  On success the out_files list is the first
tuple component per job, and when save_cmd is set the log text joins the
command lines with the visible delimiter (print appends a final newline).
trace records the order in which jobs started executing. -/
def runInterface {X : Type} (ext : String → X → String → Except String (Image × String))
    (inDtype : String → ℕ) (in_files : List String) (xfms_list : List X) (ifargs : IfArgs)
    (num_threads : ℤ) (save_cmd : Bool) (cwd : String) (order : List ℕ) : RunOutcome :=
  let mode := execPlan num_threads
  if in_files.length ≠ xfms_list.length then
    ⟨.error "AssertionError", false, mode, []⟩
  else
    let jobs := (in_files.zip xfms_list).enum.map (fun p => (p.2.1, p.2.2, ifargs, p.1, cwd))
    match dispatch (applytfms ext inDtype) jobs mode order with
    | (.error e, tr) => ⟨.error e, false, mode, tr⟩
    | (.ok outs, tr) =>
      let files := outs.map (fun o => o.out_file)
      let log :=
        if save_cmd then
          some (String.intercalate "\n-------\n" (outs.map (fun o => o.cmdline)) ++ "\n")
        else none
      ⟨.ok (files, log), true, mode, tr⟩

/-! ## Concrete instances used by the witness theorems -/

/-- Sample transform block. -/
def sampleBlockA : TransformBlock := ⟨"TA", "PA", "FA"⟩

/-- Sample transform block. -/
def sampleBlockB : TransformBlock := ⟨"TB", "PB", "FB"⟩

/-- Sample transform block. -/
def sampleBlockC : TransformBlock := ⟨"TC", "PC", "FC"⟩

/-- Sample deformation-field source (not sniffed as plain text). -/
def sampleWarpSrc : XfmSource := ⟨"/warp.nii.gz", some "application/gzip", []⟩

/-- Sample single-transform ITK text source (constant case). -/
def sampleOneSrc : XfmSource := ⟨"/one.txt", some "text/plain", containerLines [sampleBlockA]⟩

/-- Sample three-block ITK text container source. -/
def sampleThreeSrc : XfmSource :=
  ⟨"/three.txt", some "text/plain", containerLines [sampleBlockA, sampleBlockB, sampleBlockC]⟩

/-- Sample artifact-name function for the split loop. -/
def sampleOutBase (k : ℕ) : String := outBasePath "/two.txt" 0 "/tmp" k

/-- Sample external apply-transform call that always succeeds. -/
def sampleExtOk : String → ℕ → String → Except String (Image × String) :=
  fun f _x o => .ok (⟨5, 7⟩, "apply " ++ f ++ " to " ++ o)

/-- Sample external apply-transform call that fails on input file b. -/
def sampleExtFail : String → ℕ → String → Except String (Image × String) :=
  fun f _x _o => if f = "b" then .error "tool blew up" else .ok (⟨5, 7⟩, "ok")

/-- Sample input-dtype reader. -/
def sampleDty : String → ℕ := fun _ => 5

/-! ## Lemmas: decimal rendering -/

theorem st_data_append (a b : String) : (a ++ b).data = a.data ++ b.data := by
  cases a
  cases b
  rfl

theorem decDigitsGo_acc (fuel : ℕ) : ∀ (n : ℕ) (acc : List Char),
    decDigitsGo fuel n acc = decDigitsGo fuel n [] ++ acc := by
  induction fuel with
  | zero => intro n acc; simp [decDigitsGo]
  | succ f ih =>
    intro n acc
    by_cases h : n < 10
    · simp [decDigitsGo, h]
    · simp only [decDigitsGo, if_neg h]
      rw [ih (n / 10) (Char.ofNat (48 + n % 10) :: acc), ih (n / 10) [Char.ofNat (48 + n % 10)]]
      simp

theorem digitChar_toNat (m : ℕ) (h : m < 10) : (Char.ofNat (48 + m)).toNat = 48 + m := by
  interval_cases m <;> decide

theorem digitChar_ne_hash (m : ℕ) (h : m < 10) : Char.ofNat (48 + m) ≠ '#' := by
  interval_cases m <;> decide

theorem decVal_append_one (l : List Char) (c : Char) :
    decVal (l ++ [c]) = 10 * decVal l + (c.toNat - 48) := by
  simp [decVal, List.foldl_append]

theorem decVal_decDigitsGo (fuel : ℕ) : ∀ n : ℕ, n ≤ fuel → decVal (decDigitsGo fuel n []) = n := by
  induction fuel with
  | zero =>
    intro n hn
    have hn0 : n = 0 := by omega
    subst hn0
    simp [decDigitsGo, decVal]
  | succ f ih =>
    intro n hn
    by_cases h : n < 10
    · have hmod : n % 10 = n := Nat.mod_eq_of_lt h
      simp only [decDigitsGo, if_pos h, decVal, List.foldl_cons, List.foldl_nil]
      rw [hmod, digitChar_toNat n h]
      omega
    · simp only [decDigitsGo, if_neg h]
      rw [decDigitsGo_acc, decVal_append_one, ih (n / 10) (by omega),
        digitChar_toNat (n % 10) (by omega)]
      omega

theorem natToDec_data_inj (a b : ℕ) (h : (natToDec a).data = (natToDec b).data) : a = b := by
  have ha : decVal ((natToDec a).data) = a := decVal_decDigitsGo a a le_rfl
  have hb : decVal ((natToDec b).data) = b := decVal_decDigitsGo b b le_rfl
  rw [← ha, ← hb, h]

theorem decDigitsGo_mem (fuel : ℕ) : ∀ (n : ℕ) (acc : List Char) (c : Char),
    c ∈ decDigitsGo fuel n acc → c ∈ acc ∨ ∃ m, m < 10 ∧ c = Char.ofNat (48 + m) := by
  induction fuel with
  | zero =>
    intro n acc c hc
    simp only [decDigitsGo, List.mem_cons] at hc
    rcases hc with h | h
    · exact .inr ⟨n % 10, by omega, h⟩
    · exact .inl h
  | succ f ih =>
    intro n acc c hc
    by_cases h : n < 10
    · simp only [decDigitsGo, if_pos h, List.mem_cons] at hc
      rcases hc with h1 | h1
      · exact .inr ⟨n % 10, by omega, h1⟩
      · exact .inl h1
    · simp only [decDigitsGo, if_neg h] at hc
      rcases ih (n / 10) _ c hc with h1 | h1
      · rcases List.mem_cons.mp h1 with h2 | h2
        · exact .inr ⟨n % 10, by omega, h2⟩
        · exact .inl h2
      · exact .inr h1

theorem natToDec_no_hash (n : ℕ) : '#' ∉ (natToDec n).data := by
  intro hmem
  rcases decDigitsGo_mem n n [] '#' hmem with h | ⟨m, hm, he⟩
  · simp at h
  · exact digitChar_ne_hash m hm he.symm

/-! ## Lemmas: marker counting -/

theorem leadsWith_self_append (p s : List Char) : leadsWith p (p ++ s) = true := by
  induction p with
  | nil => rfl
  | cons c t ih => simp [leadsWith, ih]

theorem hashT_match_head (c : Char) (rest : List Char)
    (h : leadsWith "#Transform".data (c :: rest) = true) : c = '#' := by
  have hd : "#Transform".data = '#' :: "Transform".data := rfl
  rw [hd] at h
  simp only [leadsWith, Bool.and_eq_true, decide_eq_true_eq] at h
  exact h.1.symm

theorem countHT_no_hash (s : List Char) (h : '#' ∉ s) : countHashTransform s = 0 := by
  induction s with
  | nil => rfl
  | cons c rest ih =>
    simp only [List.mem_cons, not_or] at h
    have hm : leadsWith "#Transform".data (c :: rest) = false := by
      cases hl : leadsWith "#Transform".data (c :: rest)
      · rfl
      · exact absurd (hashT_match_head c rest hl).symm h.1
    rw [countHashTransform, hm]
    simpa using ih h.2

theorem countHT_skip (l s : List Char) (h : '#' ∉ l) :
    countHashTransform (l ++ s) = countHashTransform s := by
  induction l with
  | nil => rfl
  | cons c t ih =>
    simp only [List.mem_cons, not_or] at h
    have hm : leadsWith "#Transform".data (c :: (t ++ s)) = false := by
      cases hl : leadsWith "#Transform".data (c :: (t ++ s))
      · rfl
      · exact absurd (hashT_match_head c (t ++ s) hl).symm h.1
    rw [List.cons_append, countHashTransform, hm]
    simpa using ih h.2

theorem countHT_pattern_cons (s : List Char) :
    countHashTransform ("#Transform".data ++ s) = 1 + countHashTransform s := by
  have hm : leadsWith "#Transform".data ('#' :: ("Transform".data ++ s)) = true := by
    have h0 : ('#' : Char) :: ("Transform".data ++ s) = "#Transform".data ++ s := rfl
    rw [h0]
    exact leadsWith_self_append _ _
  have hd : "#Transform".data ++ s = '#' :: ("Transform".data ++ s) := rfl
  rw [hd, countHashTransform, if_pos hm]
  have h3 : ('T' :: 'r' :: 'a' :: 'n' :: 's' :: 'f' :: 'o' :: 'r' :: 'm' :: s) =
      "Transform".data ++ s := rfl
  have h4 : countHashTransform ("Transform".data ++ s) = countHashTransform s :=
    countHT_skip _ _ (by decide)
  simp only [h3, h4]

theorem countHT_markerLine (n : ℕ) : countHashTransform (markerLine n).data = 1 := by
  have hd : (markerLine n).data = "#Transform".data ++ (' ' :: (natToDec n).data) := by
    rw [markerLine, st_data_append]
    rfl
  rw [hd, countHT_pattern_cons]
  have : countHashTransform (' ' :: (natToDec n).data) = 0 := by
    apply countHT_no_hash
    simp only [List.mem_cons, not_or]
    exact ⟨by decide, natToDec_no_hash n⟩
  simp [this]

theorem countTL_cons (l : String) (ls : List String) :
    countTransformLines (l :: ls) = countHashTransform l.data + countTransformLines ls := by
  simp [countTransformLines]

theorem cleanLine_count_zero (l : String) (h : CleanLine l) : countHashTransform l.data = 0 :=
  countHT_no_hash l.data h.2.1

theorem countTL_blocksLines (bs : List TransformBlock) : ∀ j : ℕ,
    (∀ b ∈ bs, CleanBlock b) → countTransformLines (blocksLines j bs) = bs.length := by
  induction bs with
  | nil => intro j _; rfl
  | cons b t ih =>
    intro j hc
    have hb : CleanBlock b := hc b (List.mem_cons_self b t)
    rw [blocksLines, countTL_cons, countTL_cons, countTL_cons, countTL_cons,
      countHT_markerLine, cleanLine_count_zero _ hb.1, cleanLine_count_zero _ hb.2.1,
      cleanLine_count_zero _ hb.2.2, ih (j + 1) (fun x hx => hc x (List.mem_cons_of_mem b hx))]
    simp only [List.length_cons]
    omega

theorem countTL_containerLines (bs : List TransformBlock) (hc : ∀ b ∈ bs, CleanBlock b) :
    countTransformLines (containerLines bs) = bs.length := by
  rw [containerLines, countTL_cons, countTL_blocksLines bs 0 hc]
  have : countHashTransform insightV1.data = 0 := by decide
  simp [this]

/-! ## Lemmas: marker lines and marker lookup -/

theorem markerLine_ne (a b : ℕ) (h : a ≠ b) : markerLine a ≠ markerLine b := by
  intro he
  apply h
  apply natToDec_data_inj
  have hd := congrArg String.data he
  rw [markerLine, markerLine, st_data_append, st_data_append] at hd
  exact List.append_cancel_left hd

theorem hash_mem_markerLine (n : ℕ) : '#' ∈ (markerLine n).data := by
  rw [markerLine, st_data_append]
  exact List.mem_append_left _ (by decide)

theorem cleanLine_ne_marker (l : String) (hl : CleanLine l) (n : ℕ) : l ≠ markerLine n := by
  intro he
  exact hl.2.1 (he ▸ hash_mem_markerLine n)

theorem pyListIndex_blocks (bs : List TransformBlock) : ∀ (j i : ℕ) (hi : i < bs.length),
    (∀ b ∈ bs, CleanBlock b) →
    pyListIndex (markerLine (j + i)) (blocksLines j bs) = some (4 * i) ∧
    ((blocksLines j bs).drop (4 * i + 1)).take 3 = blockDataLines (bs.get ⟨i, hi⟩) := by
  induction bs with
  | nil => intro j i hi _; simp at hi
  | cons b t ih =>
    intro j i hi hc
    have hb : CleanBlock b := hc b (List.mem_cons_self b t)
    rcases i with _ | i
    · constructor
      · simp [blocksLines, pyListIndex]
      · simp [blocksLines, blockDataLines]
    · have hne : markerLine j ≠ markerLine (j + (i + 1)) := markerLine_ne _ _ (by omega)
      have ht1 : b.typeLine ≠ markerLine (j + (i + 1)) := cleanLine_ne_marker _ hb.1 _
      have ht2 : b.paramsLine ≠ markerLine (j + (i + 1)) := cleanLine_ne_marker _ hb.2.1 _
      have ht3 : b.fixedLine ≠ markerLine (j + (i + 1)) := cleanLine_ne_marker _ hb.2.2 _
      have hi' : i < t.length := by simpa using hi
      have hrw : j + (i + 1) = (j + 1) + i := by omega
      have hih := ih (j + 1) i hi' (fun x hx => hc x (List.mem_cons_of_mem b hx))
      constructor
      · rw [blocksLines, pyListIndex, if_neg hne, pyListIndex, if_neg ht1,
          pyListIndex, if_neg ht2, pyListIndex, if_neg ht3, hrw, hih.1]
        show some (4 * i + 1 + 1 + 1 + 1) = some (4 * (i + 1))
        simp only [Option.some.injEq]
        omega
      · have hd : (blocksLines j (b :: t)).drop (4 * (i + 1) + 1) =
            (blocksLines (j + 1) t).drop (4 * i + 1) := by
          rw [blocksLines]
          have h5 : 4 * (i + 1) + 1 = (4 * i + 1) + 1 + 1 + 1 + 1 := by omega
          rw [h5]
          simp [List.drop_succ_cons]
        rw [hd, hih.2]
        rfl

/-! ## Lemmas: stripping the split artifact -/

theorem pyStrip_artifact (b : TransformBlock) (hb : CleanBlock b) :
    pyStripLines (artifactLines b) =
      [insightV1, markerLine 0, b.typeLine, b.paramsLine, b.fixedLine] := by
  have hv : ¬(insightV1 = "") := by decide
  have hf : ¬(b.fixedLine = "") := hb.2.2.1
  simp [pyStripLines, artifactLines, hv, hf]

/-! ## Lemmas: mapExcept -/

theorem mapExcept_ok_length {α β : Type} (f : α → Except String β) :
    ∀ (l : List α) (r : List β), mapExcept f l = .ok r → r.length = l.length := by
  intro l
  induction l with
  | nil => intro r h; cases h; rfl
  | cons a t ih =>
    intro r h
    rw [mapExcept] at h
    cases hfa : f a with
    | error e => rw [hfa] at h; cases h
    | ok b =>
      rw [hfa] at h
      cases hmt : mapExcept f t with
      | error e => rw [hmt] at h; cases h
      | ok bs =>
        rw [hmt] at h
        cases h
        simp [ih bs hmt]

theorem mapExcept_ok_forall {α β : Type} (f : α → Except String β) :
    ∀ (l : List α) (r : List β), mapExcept f l = .ok r →
      List.Forall₂ (fun a b => f a = .ok b) l r := by
  intro l
  induction l with
  | nil => intro r h; cases h; exact .nil
  | cons a t ih =>
    intro r h
    rw [mapExcept] at h
    cases hfa : f a with
    | error e => rw [hfa] at h; cases h
    | ok b =>
      rw [hfa] at h
      cases hmt : mapExcept f t with
      | error e => rw [hmt] at h; cases h
      | ok bs =>
        rw [hmt] at h
        cases h
        exact .cons hfa (ih bs hmt)

/-! ## Lemmas: processSource -/

theorem processSource_const (n : ℕ) (tmp : String) (i : ℕ) (s : XfmSource)
    (h : constantCase s = true) :
    processSource n tmp i s = .ok (List.replicate n s.path, []) := by
  by_cases hm : s.mimeType = some "text/plain"
  · have h' : headStartsInsight (pyStripLines s.lines) = false ∨
        countTransformLines (pyStripLines s.lines) = 1 := by
      cases hh : headStartsInsight (pyStripLines s.lines)
      · exact .inl rfl
      · right
        rw [constantCase, hh] at h
        simpa [hm] using h
    rcases h' with h1 | h1
    · simp [processSource, hm, h1]
    · cases hh : headStartsInsight (pyStripLines s.lines) <;>
        simp [processSource, hm, h1, hh]
  · simp [processSource, hm]

theorem processSource_mismatch (N : ℕ) (tmp : String) (i : ℕ) (s : XfmSource)
    (bs : List TransformBlock) (k : ℕ)
    (hm : s.mimeType = some "text/plain")
    (hwf : pyStripLines s.lines = containerLines bs)
    (hclean : ∀ b ∈ bs, CleanBlock b)
    (hk : bs.length = k) (hk1 : 1 < k) (hkN : k ≠ N) :
    processSource N tmp i s = .error (mismatchMsg k N) := by
  have hcount : countTransformLines (pyStripLines s.lines) = k := by
    rw [hwf, countTL_containerLines bs hclean, hk]
  have hhead : headStartsInsight (pyStripLines s.lines) = true := by
    rw [hwf, containerLines]
    show leadsWith "#Insight Transform File".data insightV1.data = true
    decide
  simp [processSource, hm, hhead, hcount, hkN]
  omega

theorem processSource_row_len (n : ℕ) (tmp : String) (i : ℕ) (s : XfmSource)
    (row : List String) (ws : List (String × List String))
    (h : processSource n tmp i s = .ok (row, ws)) : row.length = n := by
  by_cases hm : s.mimeType = some "text/plain"
  · cases hh : headStartsInsight (pyStripLines s.lines)
    · simp [processSource, hm, hh] at h
      rw [← h.1]
      simp
    · by_cases hc1 : countTransformLines (pyStripLines s.lines) = 1
      · simp [processSource, hm, hh, hc1] at h
        rw [← h.1]
        simp
      · by_cases hcn : countTransformLines (pyStripLines s.lines) = n
        · have hn1 : ¬(n = 1) := by rw [← hcn]; exact hc1
          cases hsa : splitAll ((pyStripLines s.lines).tail) (outBasePath s.path i tmp) n with
          | error e => simp [processSource, hm, hh, hcn, hn1, hsa] at h
          | ok pairs =>
            simp [processSource, hm, hh, hcn, hn1, hsa] at h
            rw [splitAll] at hsa
            have hlen := mapExcept_ok_length _ _ _ hsa
            simp only [List.length_range] at hlen
            rw [← h.1]
            simp [hlen]
        · simp [processSource, hm, hh, hc1, hcn] at h
  · simp [processSource, hm] at h
    rw [← h.1]
    simp

/-! ## Lemmas: the transpose idiom -/

theorem pyZipGo_replicate (n : ℕ) : ∀ (p : String) (pt : List String),
    pyZipGo n ((p :: pt).map (List.replicate n)) = List.replicate n (p :: pt) := by
  induction n with
  | zero =>
    intro p pt
    simp [pyZipGo, List.replicate]
  | succ n ih =>
    intro p pt
    have hall : ((p :: pt).map (List.replicate (n + 1))).all (fun x => !x.isEmpty) = true := by
      simp [List.all_eq_true]
    have hmap : (p :: pt).map (List.replicate (n + 1)) =
        List.replicate (n + 1) p :: pt.map (List.replicate (n + 1)) := by simp
    rw [hmap, pyZipGo]
    rw [← hmap, if_pos hall]
    have hheads : ((p :: pt).map (List.replicate (n + 1))).map (fun x => x.headD "") = p :: pt := by
      rw [List.map_map]
      have : ∀ x ∈ (p :: pt), ((fun x => x.headD "") ∘ List.replicate (n + 1)) x = id x := by
        intro x _
        simp [List.replicate_succ]
      rw [List.map_congr_left this, List.map_id]
    have htails : ((p :: pt).map (List.replicate (n + 1))).map List.tail =
        (p :: pt).map (List.replicate n) := by
      rw [List.map_map]
      apply List.map_congr_left
      intro x _
      simp [List.replicate_succ]
    rw [hheads, htails, ih p pt, List.replicate_succ]

theorem pyZip_replicate (n : ℕ) (ps : List String) (hps : ps ≠ []) :
    pyZip (ps.map (List.replicate n)) = List.replicate n ps := by
  cases ps with
  | nil => exact absurd rfl hps
  | cons p pt =>
    rw [pyZip]
    have hfuel : (((p :: pt).map (List.replicate n)).headD []).length = n := by simp
    rw [hfuel]
    exact pyZipGo_replicate n p pt

theorem pyZipGo_shape (n : ℕ) : ∀ rows : List (List String), rows ≠ [] →
    (∀ r ∈ rows, r.length = n) →
    (pyZipGo n rows).length = n ∧ ∀ u ∈ pyZipGo n rows, u.length = rows.length := by
  induction n with
  | zero =>
    intro rows hne hlen
    cases rows with
    | nil => exact absurd rfl hne
    | cons l ls =>
      constructor
      · simp [pyZipGo]
      · intro u hu
        simp [pyZipGo] at hu
  | succ n ih =>
    intro rows hne hlen
    cases rows with
    | nil => exact absurd rfl hne
    | cons l ls =>
      have hall : ((l :: ls).all (fun x => !x.isEmpty)) = true := by
        simp only [List.all_eq_true]
        intro x hx
        have := hlen x hx
        cases x with
        | nil => simp at this
        | cons a b => simp
      have htl : ∀ r ∈ (l :: ls).map List.tail, r.length = n := by
        intro r hr
        rcases List.mem_map.mp hr with ⟨x, hx, hxr⟩
        have := hlen x hx
        rw [← hxr]
        simp [this]
      have hih := ih ((l :: ls).map List.tail) (by simp) htl
      simp only [List.map_cons, List.length_cons, List.length_map] at hih
      rw [pyZipGo, if_pos hall]
      constructor
      · simp [hih.1]
      · intro u hu
        rcases List.mem_cons.mp hu with hu1 | hu1
        · rw [hu1]
          simp
        · have := hih.2 u hu1
          simpa using this

theorem pyZip_shape (n : ℕ) (rows : List (List String)) (hne : rows ≠ [])
    (hlen : ∀ r ∈ rows, r.length = n) :
    (pyZip rows).length = n ∧ ∀ u ∈ pyZip rows, u.length = rows.length := by
  cases rows with
  | nil => exact absurd rfl hne
  | cons l ls =>
    rw [pyZip]
    have hfuel : ((l :: ls).headD []).length = n := by
      simp [hlen l (List.mem_cons_self l ls)]
    rw [hfuel]
    exact pyZipGo_shape n (l :: ls) hne hlen

/-! ## Lemmas: the arrangement loop -/

theorem arrangeGo_const (n : ℕ) (tmp : String) :
    ∀ (srcs : List XfmSource), (∀ s ∈ srcs, constantCase s = true) →
    ∀ (i : ℕ) (rows : List (List String)) (writes : List (String × List String)),
    arrangeGo n tmp i srcs rows writes =
      (.ok (pyZip (rows ++ srcs.map (fun s => List.replicate n s.path))), writes) := by
  intro srcs
  induction srcs with
  | nil => intro _ i rows writes; simp [arrangeGo]
  | cons s rest ih =>
    intro hc i rows writes
    rw [arrangeGo, processSource_const n tmp i s (hc s (List.mem_cons_self s rest))]
    dsimp only
    rw [ih (fun x hx => hc x (List.mem_cons_of_mem s hx)) (i + 1)
      (rows ++ [List.replicate n s.path]) (writes ++ [])]
    simp

theorem arrangeGo_ok_shape (n : ℕ) (tmp : String) :
    ∀ (srcs : List XfmSource) (i : ℕ) (rows : List (List String))
      (writes : List (String × List String)) (res : List (List String))
      (w : List (String × List String)),
    arrangeGo n tmp i srcs rows writes = (.ok res, w) →
    ∃ rows2 : List (List String), res = pyZip (rows ++ rows2) ∧
      rows2.length = srcs.length ∧ ∀ r ∈ rows2, r.length = n := by
  intro srcs
  induction srcs with
  | nil =>
    intro i rows writes res w h
    rw [arrangeGo] at h
    refine ⟨[], ?_, rfl, by simp⟩
    have := congrArg Prod.fst h
    simp at this
    rw [← this]
    simp
  | cons s rest ih =>
    intro i rows writes res w h
    rw [arrangeGo] at h
    cases hp : processSource n tmp i s with
    | error e =>
      rw [hp] at h
      cases h
    | ok rowws =>
      rcases rowws with ⟨row, ws⟩
      rw [hp] at h
      rcases ih (i + 1) (rows ++ [row]) (writes ++ ws) res w h with ⟨rows2, hres, hlen2, hall2⟩
      refine ⟨row :: rows2, ?_, by simp [hlen2], ?_⟩
      · rw [hres, List.append_assoc]
        rfl
      · intro r hr
        rcases List.mem_cons.mp hr with h1 | h1
        · rw [h1]
          exact processSource_row_len n tmp i s row ws hp
        · exact hall2 r h1

/-! ## Lemmas: the worker pool -/

theorem poolMap_lookup {α β : Type} (f : α → β) (jobs : List α) (order : List ℕ) :
    ∀ (t0 : ℕ → Option β) (k : ℕ),
    (order.foldl (fun t i => fun k2 => if k2 = i then (jobs.get? i).map f else t k2) t0) k =
      if k ∈ order then (jobs.get? k).map f else t0 k := by
  induction order with
  | nil => intro t0 k; simp
  | cons i rest ih =>
    intro t0 k
    rw [List.foldl_cons, ih]
    by_cases hk : k ∈ rest
    · simp [hk]
    · by_cases hki : k = i
      · subst hki
        simp [hk]
      · simp [hk, hki]

theorem poolMap_covering {α β : Type} (f : α → β) (jobs : List α) (order : List ℕ)
    (hord : ∀ k, k < jobs.length → k ∈ order) :
    poolMap f jobs order = (List.range jobs.length).map (fun k => (jobs.get? k).map f) := by
  rw [poolMap]
  apply List.map_congr_left
  intro k hk
  rw [poolMap_lookup]
  simp [hord k (List.mem_range.mp hk)]

theorem collect_range_map {α β : Type} [DecidableEq β] (f : α → Except String β) :
    ∀ l : List α,
    collectSlots ((List.range l.length).map (fun k => (l.get? k).map f)) = mapExcept f l := by
  intro l
  induction l with
  | nil => rfl
  | cons a tl ih =>
    rw [List.length_cons, List.range_succ_eq_map, List.map_cons, List.map_map]
    have hhead : ((a :: tl).get? 0).map f = some (f a) := rfl
    rw [hhead]
    have htail : ((fun k => ((a :: tl).get? k).map f) ∘ Nat.succ) =
        (fun k => (tl.get? k).map f) := by
      funext k
      rfl
    rw [htail]
    cases hfa : f a with
    | error e =>
      rw [collectSlots, mapExcept, hfa]
    | ok b =>
      rw [collectSlots, mapExcept, hfa, ih]

/-! ## Lemmas: successful executor runs -/

theorem dispatch_success {α : Type} (f : α → Except String JobOut) (jobs : List α)
    (mode : ExecMode) (order : List ℕ) (outs : List JobOut)
    (hord : ∀ k, k < jobs.length → k ∈ order)
    (hjobs : mapExcept f jobs = .ok outs) :
    (dispatch f jobs mode order).1 = .ok outs := by
  cases mode with
  | sequential => simpa [dispatch] using hjobs
  | pooled mw =>
    simp only [dispatch]
    rw [poolMap_covering f jobs order hord, collect_range_map, hjobs]

theorem runInterface_success {X : Type}
    (ext : String → X → String → Except String (Image × String))
    (inDtype : String → ℕ) (in_files : List String) (xfms_list : List X) (ifargs : IfArgs)
    (w : ℤ) (save_cmd : Bool) (cwd : String) (order : List ℕ) (outs : List JobOut)
    (hlen : in_files.length = xfms_list.length)
    (hord : order.Perm (List.range in_files.length))
    (hjobs : mapExcept (applytfms ext inDtype)
      ((in_files.zip xfms_list).enum.map (fun p => (p.2.1, p.2.2, ifargs, p.1, cwd))) =
      .ok outs) :
    (runInterface ext inDtype in_files xfms_list ifargs w save_cmd cwd order).result =
      .ok (outs.map (fun o => o.out_file),
        if save_cmd then
          some (String.intercalate "\n-------\n" (outs.map (fun o => o.cmdline)) ++ "\n")
        else none) ∧
    (runInterface ext inDtype in_files xfms_list ifargs w save_cmd cwd order).cleanedUp =
      true := by
  have hjl : ((in_files.zip xfms_list).enum.map
      (fun p => (p.2.1, p.2.2, ifargs, p.1, cwd))).length = in_files.length := by
    simp [List.length_zip, hlen]
  have hord' : ∀ k, k < ((in_files.zip xfms_list).enum.map
      (fun p => (p.2.1, p.2.2, ifargs, p.1, cwd))).length → k ∈ order := by
    intro k hk
    rw [hjl] at hk
    exact hord.mem_iff.mpr (List.mem_range.mpr hk)
  have hdp := dispatch_success (applytfms ext inDtype) _ (execPlan w) order outs hord' hjobs
  rw [runInterface]
  rw [if_neg (by rw [hlen]; exact fun hc => hc rfl)]
  rcases hout : dispatch (applytfms ext inDtype)
      ((in_files.zip xfms_list).enum.map (fun p => (p.2.1, p.2.2, ifargs, p.1, cwd)))
      (execPlan w) order with ⟨o1, tr⟩
  rw [hout] at hdp
  simp only at hdp
  subst hdp
  simp only []
  rw [hout]
  exact ⟨rfl, rfl⟩

/-! ## Additional run lemmas for mode and trace -/

theorem runInterface_mode {X : Type} (ext : String → X → String → Except String (Image × String))
    (inDtype : String → ℕ) (in_files : List String) (xfms_list : List X) (ifargs : IfArgs)
    (w : ℤ) (save_cmd : Bool) (cwd : String) (order : List ℕ) :
    (runInterface ext inDtype in_files xfms_list ifargs w save_cmd cwd order).mode =
      execPlan w := by
  rw [runInterface]
  by_cases hl : in_files.length ≠ xfms_list.length
  · simp [hl]
  · rw [if_neg hl]
    simp only []
    rcases hout : dispatch (applytfms ext inDtype)
        ((in_files.zip xfms_list).enum.map (fun p => (p.2.1, p.2.2, ifargs, p.1, cwd)))
        (execPlan w) order with ⟨o1, tr⟩
    rw [hout]
    cases o1 <;> rfl

theorem runInterface_trace_seq {X : Type}
    (ext : String → X → String → Except String (Image × String))
    (inDtype : String → ℕ) (in_files : List String) (xfms_list : List X) (ifargs : IfArgs)
    (w : ℤ) (save_cmd : Bool) (cwd : String) (order : List ℕ)
    (hm : execPlan w = .sequential) (hl : in_files.length = xfms_list.length) :
    (runInterface ext inDtype in_files xfms_list ifargs w save_cmd cwd order).trace =
      List.range in_files.length := by
  have hjl : ((in_files.zip xfms_list).enum.map
      (fun p => (p.2.1, p.2.2, ifargs, p.1, cwd))).length = in_files.length := by
    simp [List.length_zip, hl]
  rw [runInterface]
  rw [if_neg (by rw [hl]; exact fun hc => hc rfl)]
  simp only []
  rw [hm, dispatch]
  cases hms : mapExcept (applytfms ext inDtype)
      ((in_files.zip xfms_list).enum.map (fun p => (p.2.1, p.2.2, ifargs, p.1, cwd))) with
  | error e => simp [hjl]
  | ok outs => simp [hjl]

theorem arrangeGo_const_prefix (n : ℕ) (tmp : String) :
    ∀ (pre : List XfmSource), (∀ s ∈ pre, constantCase s = true) →
    ∀ (srcs : List XfmSource) (i : ℕ) (rows : List (List String))
      (writes : List (String × List String)),
    arrangeGo n tmp i (pre ++ srcs) rows writes =
      arrangeGo n tmp (i + pre.length) srcs
        (rows ++ pre.map (fun s => List.replicate n s.path)) writes := by
  intro pre
  induction pre with
  | nil => intro _ srcs i rows writes; simp
  | cons s rest ih =>
    intro hc srcs i rows writes
    rw [List.cons_append, arrangeGo,
      processSource_const n tmp i s (hc s (List.mem_cons_self s rest))]
    dsimp only
    rw [ih (fun x hx => hc x (List.mem_cons_of_mem s hx)) srcs (i + 1)
      (rows ++ [List.replicate n s.path]) (writes ++ [])]
    have hidx : i + 1 + rest.length = i + (s :: rest).length := by
      simp only [List.length_cons]
      omega
    rw [hidx, List.append_nil, List.append_assoc]
    rfl

/-! ## Claim theorems -/

/-- C1: for every list of N input volumes with N matching per-volume transform
chains and every worker count w at least 1, the executor's returned
output-file sequence and (when logging is enabled) its log-entry sequence are
ordered by volume index 0..N-1, identical to submission order, for every
possible completion order of the concurrent jobs: under any completion
permutation the run returns exactly the submission-ordered job results (the
second conjunct ties the i-th result to the i-th submitted job). -/
theorem MultiApplyTransforms_output_index_ordered {X : Type}
    (ext : String → X → String → Except String (Image × String))
    (inDtype : String → ℕ) (in_files : List String) (xfms_list : List X) (ifargs : IfArgs)
    (w : ℤ) (save_cmd : Bool) (cwd : String) (order : List ℕ) (outs : List JobOut)
    (hlen : in_files.length = xfms_list.length) (hw : 1 ≤ w)
    (hord : order.Perm (List.range in_files.length))
    (hjobs : mapExcept (applytfms ext inDtype)
      ((in_files.zip xfms_list).enum.map (fun p => (p.2.1, p.2.2, ifargs, p.1, cwd))) =
      .ok outs) :
    (runInterface ext inDtype in_files xfms_list ifargs w save_cmd cwd order).result =
      .ok (outs.map (fun o => o.out_file),
        if save_cmd then
          some (String.intercalate "\n-------\n" (outs.map (fun o => o.cmdline)) ++ "\n")
        else none) ∧
    List.Forall₂ (fun p o => applytfms ext inDtype p = .ok o)
      ((in_files.zip xfms_list).enum.map (fun p => (p.2.1, p.2.2, ifargs, p.1, cwd))) outs :=
  ⟨(runInterface_success ext inDtype in_files xfms_list ifargs w save_cmd cwd order outs
      hlen hord hjobs).1,
    mapExcept_ok_forall _ _ _ hjobs⟩

/-- Witness for C1 at a concrete two-volume run dispatched on a pool of two
workers whose jobs complete in reversed order. -/
theorem MultiApplyTransforms_output_index_ordered_witness :
    (runInterface sampleExtOk sampleDty ["a", "b"] [0, 1] ⟨false⟩ 2 true "/w" [1, 0]).result =
      .ok (([⟨"/w/a_xform-00000", "apply a to /w/a_xform-00000", ⟨5, 7⟩, false⟩,
             ⟨"/w/b_xform-00001", "apply b to /w/b_xform-00001", ⟨5, 7⟩, false⟩] :
          List JobOut).map (fun o => o.out_file),
        if true then
          some (String.intercalate "\n-------\n"
            (([⟨"/w/a_xform-00000", "apply a to /w/a_xform-00000", ⟨5, 7⟩, false⟩,
               ⟨"/w/b_xform-00001", "apply b to /w/b_xform-00001", ⟨5, 7⟩, false⟩] :
              List JobOut).map (fun o => o.cmdline)) ++ "\n")
        else none) ∧
    List.Forall₂ (fun p o => applytfms sampleExtOk sampleDty p = .ok o)
      (((["a", "b"].zip [0, 1]).enum).map (fun p => (p.2.1, p.2.2, (⟨false⟩ : IfArgs), p.1, "/w")))
      [⟨"/w/a_xform-00000", "apply a to /w/a_xform-00000", ⟨5, 7⟩, false⟩,
       ⟨"/w/b_xform-00001", "apply b to /w/b_xform-00001", ⟨5, 7⟩, false⟩] :=
  MultiApplyTransforms_output_index_ordered sampleExtOk sampleDty ["a", "b"] [0, 1] ⟨false⟩
    2 true "/w" [1, 0]
    [⟨"/w/a_xform-00000", "apply a to /w/a_xform-00000", ⟨5, 7⟩, false⟩,
     ⟨"/w/b_xform-00001", "apply b to /w/b_xform-00001", ⟨5, 7⟩, false⟩]
    rfl (by decide) (by decide) (by decide)

/-- C2 counterexample: the claim says every worker count at most 1 runs
sequentially with no pool, but the source maps a worker count below 1 to
None and then builds a ThreadPoolExecutor with no explicit bound: at worker
count 0 the run uses a pool. -/
theorem MultiApplyTransforms_low_worker_pool_cx :
    (runInterface sampleExtOk sampleDty ["a"] [0] ⟨false⟩ 0 false "/w" [0]).mode =
      ExecMode.pooled none ∧
    ExecMode.pooled none ≠ ExecMode.sequential := by
  constructor
  · rw [runInterface_mode]
    decide
  · decide

/-- C2 (amended): only a worker count of exactly 1 selects the in-line
sequential execution (whose job trace is volume-index order 0..N-1); a count
above 1 dispatches to a pool bounded by that count, and a count below 1
dispatches to a pool with no explicit bound (the count is cleared to None). -/
theorem MultiApplyTransforms_mode_selection {X : Type}
    (ext : String → X → String → Except String (Image × String))
    (inDtype : String → ℕ) (in_files : List String) (xfms_list : List X) (ifargs : IfArgs)
    (w : ℤ) (save_cmd : Bool) (cwd : String) (order : List ℕ) :
    (runInterface ext inDtype in_files xfms_list ifargs w save_cmd cwd order).mode =
      (if w = 1 then ExecMode.sequential
       else ExecMode.pooled (if w < 1 then none else some w)) ∧
    (w = 1 → in_files.length = xfms_list.length →
      (runInterface ext inDtype in_files xfms_list ifargs w save_cmd cwd order).trace =
        List.range in_files.length) := by
  constructor
  · rw [runInterface_mode, execPlan]
    by_cases h1 : w < 1
    · have h2 : ¬(w = 1) := by omega
      simp [h1, h2]
    · by_cases h2 : w = 1
      · simp [h1, h2]
      · simp [h1, h2]
  · intro h1 hl
    apply runInterface_trace_seq
    · subst h1
      decide
    · exact hl

/-- Witness for C2 at worker count 1 on a one-volume input. -/
theorem MultiApplyTransforms_mode_selection_witness :
    (runInterface sampleExtOk sampleDty ["a"] [0] ⟨false⟩ 1 false "/w" [0]).mode =
      (if (1 : ℤ) = 1 then ExecMode.sequential
       else ExecMode.pooled (if (1 : ℤ) < 1 then none else some 1)) ∧
    (runInterface sampleExtOk sampleDty ["a"] [0] ⟨false⟩ 1 false "/w" [0]).trace =
      List.range (["a"] : List String).length :=
  ⟨(MultiApplyTransforms_mode_selection sampleExtOk sampleDty ["a"] [0] ⟨false⟩ 1 false
      "/w" [0]).1,
    (MultiApplyTransforms_mode_selection sampleExtOk sampleDty ["a"] [0] ⟨false⟩ 1 false
      "/w" [0]).2 rfl rfl⟩

/-- C3 counterexample: the claim (and its spec source) makes arrange assign
every constant-case source to every volume so that all N assignments equal
the chain; on the empty chain (vacuously all-constant) with one volume the
transpose of zero rows is empty, not one empty assignment. -/
theorem arrange_constant_empty_chain_cx :
    (arrangeXfms [] 1 "/tmp").1 = .ok [] ∧
    (Except.ok ([] : List (List String)) : Except String (List (List String))) ≠
      .ok (List.replicate 1 []) := by
  constructor
  · decide
  · decide

/-- C3 (amended): for every non-empty transform chain in which every source
is constant-case and every volume count N at least 1, arrange assigns each
source path unchanged to every volume: the result is N identical assignments,
each equal to the original chain of paths in original order, and no split
artifact is written. -/
theorem arrange_constant_chain_replicated (chain : List XfmSource) (N : ℕ) (tmp : String)
    (hne : chain ≠ []) (hc : ∀ s ∈ chain, constantCase s = true) (hN : 1 ≤ N) :
    arrangeXfms chain N tmp =
      (.ok (List.replicate N (chain.map (fun s => s.path))), []) := by
  rw [arrangeXfms, arrangeGo_const N tmp chain hc 0 [] []]
  rw [List.nil_append]
  have hmm : chain.map (fun s => List.replicate N s.path) =
      (chain.map (fun s => s.path)).map (List.replicate N) := by
    rw [List.map_map]
    rfl
  rw [hmm, pyZip_replicate N (chain.map (fun s => s.path))
    (fun hnil => hne (List.map_eq_nil_iff.mp hnil))]

/-- Witness for C3 on a two-source constant chain replicated over three
volumes. -/
theorem arrange_constant_chain_replicated_witness :
    arrangeXfms [sampleWarpSrc, sampleOneSrc] 3 "/tmp" =
      (.ok (List.replicate 3 (([sampleWarpSrc, sampleOneSrc] : List XfmSource).map
        (fun s => s.path))), []) :=
  arrange_constant_chain_replicated [sampleWarpSrc, sampleOneSrc] 3 "/tmp"
    (by decide) (by decide) (by decide)

/-- C4: for every ITK text transform source containing k greater than 1
transform blocks with k different from the volume count, arrange (reached
through any prefix of constant-case sources) fails with the count-mismatch
error reporting the found count k and the expected volume count, and no
split artifact has been written at that point — in particular none from the
offending source. -/
theorem arrange_count_mismatch_fails (pre : List XfmSource) (bad : XfmSource)
    (rest : List XfmSource) (N k : ℕ) (tmp : String) (bs : List TransformBlock)
    (hpre : ∀ s ∈ pre, constantCase s = true)
    (hmime : bad.mimeType = some "text/plain")
    (hwf : pyStripLines bad.lines = containerLines bs)
    (hclean : ∀ b ∈ bs, CleanBlock b)
    (hk : bs.length = k) (hk1 : 1 < k) (hkN : k ≠ N) :
    arrangeXfms (pre ++ bad :: rest) N tmp = (.error (mismatchMsg k N), []) := by
  rw [arrangeXfms, arrangeGo_const_prefix N tmp pre hpre (bad :: rest) 0 [] []]
  rw [arrangeGo,
    processSource_mismatch N tmp (0 + pre.length) bad bs k hmime hwf hclean hk hk1 hkN]

/-- Witness for C4: a constant source followed by a three-block container
arranged over two volumes fails with the mismatch message for 3 and 2. -/
theorem arrange_count_mismatch_fails_witness :
    arrangeXfms [sampleWarpSrc, sampleThreeSrc] 2 "/tmp" =
      (.error (mismatchMsg 3 2), []) :=
  arrange_count_mismatch_fails [sampleWarpSrc] sampleThreeSrc [] 2 3 "/tmp"
    [sampleBlockA, sampleBlockB, sampleBlockC] (by decide) rfl (by decide) (by decide)
    rfl (by decide) (by decide)

/-- C5: for every well-formed multi-block container and every block index i,
the standalone artifact produced for block i consists exactly of the
format-version line, the marker line for index 0 (regardless of i), the three
data lines of block i copied verbatim, and a trailing blank line; re-parsing
that artifact (strip, header check, marker count, block extraction) yields a
single-block container whose one block equals original block i. -/
theorem split_serialize_reparse_roundtrip (bs : List TransformBlock) (ob : ℕ → String)
    (i : ℕ) (hi : i < bs.length) (hclean : ∀ b ∈ bs, CleanBlock b)
    (hmulti : 1 < bs.length) :
    splitOne (blocksLines 0 bs) ob i = .ok (ob i, artifactLines (bs.get ⟨i, hi⟩)) ∧
    pyStripLines (artifactLines (bs.get ⟨i, hi⟩)) =
      [insightV1, markerLine 0, (bs.get ⟨i, hi⟩).typeLine, (bs.get ⟨i, hi⟩).paramsLine,
        (bs.get ⟨i, hi⟩).fixedLine] ∧
    headStartsInsight (pyStripLines (artifactLines (bs.get ⟨i, hi⟩))) = true ∧
    countTransformLines (pyStripLines (artifactLines (bs.get ⟨i, hi⟩))) = 1 ∧
    extractBlockLines ((pyStripLines (artifactLines (bs.get ⟨i, hi⟩))).tail) 0 =
      some (blockDataLines (bs.get ⟨i, hi⟩)) := by
  have hb : CleanBlock (bs.get ⟨i, hi⟩) := hclean _ (bs.get_mem i hi)
  have hblocks := pyListIndex_blocks bs 0 i hi hclean
  have hidx : pyListIndex (markerLine i) (blocksLines 0 bs) = some (4 * i) := by
    have := hblocks.1
    rwa [Nat.zero_add] at this
  have hslice : ((blocksLines 0 bs).drop (4 * i + 1)).take 3 =
      blockDataLines (bs.get ⟨i, hi⟩) := hblocks.2
  have hstrip : pyStripLines (artifactLines (bs.get ⟨i, hi⟩)) =
      [insightV1, markerLine 0, (bs.get ⟨i, hi⟩).typeLine, (bs.get ⟨i, hi⟩).paramsLine,
        (bs.get ⟨i, hi⟩).fixedLine] := pyStrip_artifact _ hb
  refine ⟨?_, hstrip, ?_, ?_, ?_⟩
  · rw [splitOne, hidx]
    dsimp only
    rw [hslice]
    rw [artifactLines, baseXform, blockDataLines]
    rfl
  · rw [hstrip]
    show leadsWith "#Insight Transform File".data insightV1.data = true
    decide
  · rw [hstrip, countTL_cons, countTL_cons, countTL_cons, countTL_cons, countTL_cons,
      countHT_markerLine, cleanLine_count_zero _ hb.1, cleanLine_count_zero _ hb.2.1,
      cleanLine_count_zero _ hb.2.2]
    have : countHashTransform insightV1.data = 0 := by decide
    simp [this, countTransformLines]
  · rw [hstrip]
    rw [extractBlockLines]
    rw [show ([insightV1, markerLine 0, (bs.get ⟨i, hi⟩).typeLine,
      (bs.get ⟨i, hi⟩).paramsLine, (bs.get ⟨i, hi⟩).fixedLine].tail) =
      [markerLine 0, (bs.get ⟨i, hi⟩).typeLine, (bs.get ⟨i, hi⟩).paramsLine,
        (bs.get ⟨i, hi⟩).fixedLine] from rfl]
    rw [pyListIndex, if_pos rfl]
    rfl

/-- Witness for C5 on a two-block container at block index 1. -/
theorem split_serialize_reparse_roundtrip_witness :
    splitOne (blocksLines 0 [sampleBlockA, sampleBlockB]) sampleOutBase 1 =
      .ok (sampleOutBase 1, artifactLines sampleBlockB) ∧
    pyStripLines (artifactLines sampleBlockB) =
      [insightV1, markerLine 0, sampleBlockB.typeLine, sampleBlockB.paramsLine,
        sampleBlockB.fixedLine] ∧
    headStartsInsight (pyStripLines (artifactLines sampleBlockB)) = true ∧
    countTransformLines (pyStripLines (artifactLines sampleBlockB)) = 1 ∧
    extractBlockLines ((pyStripLines (artifactLines sampleBlockB)).tail) 0 =
      some (blockDataLines sampleBlockB) :=
  split_serialize_reparse_roundtrip [sampleBlockA, sampleBlockB] sampleOutBase 1
    (by decide) (by decide) (by decide)

/-- C6 counterexample: the claim requires one VolumeAssignment per volume
even for the empty chain, but arrange on the empty chain returns an empty
table: with two volumes the result has length 0, not 2. -/
theorem arrange_empty_chain_no_assignments_cx :
    (arrangeXfms [] 2 "/tmp").1 = .ok [] ∧
    ([] : List (List String)).length ≠ 2 := by
  constructor
  · decide
  · decide

/-- C6 (amended): for every non-empty transform chain on which arrange
succeeds, the result contains exactly one VolumeAssignment per volume index
(N in total) and each assignment has length equal to the number of sources of
the chain; the empty chain instead yields an empty result. -/
theorem arrange_assignment_shape (chain : List XfmSource) (N : ℕ) (tmp : String)
    (res : List (List String)) (w : List (String × List String))
    (hne : chain ≠ []) (hok : arrangeXfms chain N tmp = (.ok res, w)) :
    res.length = N ∧ ∀ r ∈ res, r.length = chain.length := by
  rw [arrangeXfms] at hok
  rcases arrangeGo_ok_shape N tmp chain 0 [] [] res w hok with ⟨rows2, hres, hlen2, hall2⟩
  rw [List.nil_append] at hres
  have hne2 : rows2 ≠ [] := by
    intro hnil
    rw [hnil] at hlen2
    exact hne (List.length_eq_zero.mp hlen2.symm)
  have hsh := pyZip_shape N rows2 hne2 hall2
  subst hres
  exact ⟨hsh.1, fun r hr => by rw [hsh.2 r hr, hlen2]⟩

/-- Witness for C6 on a one-source chain arranged over two volumes. -/
theorem arrange_assignment_shape_witness :
    ([["/warp.nii.gz"], ["/warp.nii.gz"]] : List (List String)).length = 2 ∧
    ∀ r ∈ ([["/warp.nii.gz"], ["/warp.nii.gz"]] : List (List String)),
      r.length = ([sampleWarpSrc] : List XfmSource).length :=
  arrange_assignment_shape [sampleWarpSrc] 2 "/tmp" [["/warp.nii.gz"], ["/warp.nii.gz"]] []
    (by decide) (by decide)

/-- C7 (code bug): the claim says an empty inspection output fails with the
no-output error; in the source the output bytes are converted with str,
producing the bytes repr, which is never empty, so the dead emptiness check
is skipped and the empty output instead falls through to the
matrix-not-found error. -/
theorem rotation_empty_output_misreported :
    rotationMatrixFromTransform "/xfm.h5" [] =
      .error "Unable to read rotation matrix from /xfm.h5" ∧
    rotationMatrixFromTransform "/xfm.h5" [] ≠
      .error "/xfm.h5 returned no transform info" := by
  constructor
  · decide
  · decide

/-- C8: after the external disassembly call returns, disassemble raises the
disassembly-failure error iff at least one of the two fixed expected output
files is missing, independently of the external tool's exit status; when both
exist it returns exactly the affine path and the displacement-field path in
that order. -/
theorem disassemble_postcondition (cwd : String) (fe : String → Bool) (st st2 : ℤ) :
    disassembleTransform cwd fe st = disassembleTransform cwd fe st2 ∧
    ((disassembleTransform cwd fe st = .error "unable to unpack composite transform") ↔
      (fe (affineOutPath cwd) = false ∨ fe (warpOutPath cwd) = false)) ∧
    (fe (affineOutPath cwd) = true → fe (warpOutPath cwd) = true →
      disassembleTransform cwd fe st = .ok [affineOutPath cwd, warpOutPath cwd]) := by
  cases h1 : fe (affineOutPath cwd) <;> cases h2 : fe (warpOutPath cwd) <;>
    simp [disassembleTransform, h1, h2]

/-- Witness for C8 on a file system where both expected outputs exist. -/
theorem disassemble_postcondition_witness :
    disassembleTransform "/wd" (fun _ => true) 0 =
      .ok [affineOutPath "/wd", warpOutPath "/wd"] :=
  (disassemble_postcondition "/wd" (fun _ => true) 0 1).2.2 rfl rfl

/-- C9 counterexample: the claim says the temporary working directory is
removed on exit in every case via scoped resource acquisition, but the source
only calls cleanup on the success path: when a job fails, the run raises with
the cleanup call never reached. -/
theorem run_cleanup_skipped_on_failure_cx :
    (runInterface sampleExtFail sampleDty ["a", "b"] [0, 1] ⟨false⟩ 2 false "/w"
      [0, 1]).result = .error "tool blew up" ∧
    (runInterface sampleExtFail sampleDty ["a", "b"] [0, 1] ⟨false⟩ 2 false "/w"
      [0, 1]).cleanedUp = false := by
  constructor
  · decide
  · decide

/-- C9 (amended): the explicit cleanup of the temporary working directory
runs exactly when every job succeeds; a failing job (or the length assertion)
raises out of the method before the cleanup call. -/
theorem run_cleanup_on_success {X : Type}
    (ext : String → X → String → Except String (Image × String))
    (inDtype : String → ℕ) (in_files : List String) (xfms_list : List X) (ifargs : IfArgs)
    (w : ℤ) (save_cmd : Bool) (cwd : String) (order : List ℕ) (outs : List JobOut)
    (hlen : in_files.length = xfms_list.length)
    (hord : order.Perm (List.range in_files.length))
    (hjobs : mapExcept (applytfms ext inDtype)
      ((in_files.zip xfms_list).enum.map (fun p => (p.2.1, p.2.2, ifargs, p.1, cwd))) =
      .ok outs) :
    (runInterface ext inDtype in_files xfms_list ifargs w save_cmd cwd order).cleanedUp =
      true :=
  (runInterface_success ext inDtype in_files xfms_list ifargs w save_cmd cwd order outs
    hlen hord hjobs).2

/-- Witness for C9 on a concrete successful two-volume run. -/
theorem run_cleanup_on_success_witness :
    (runInterface sampleExtOk sampleDty ["a", "b"] [0, 1] ⟨false⟩ 2 false "/w"
      [1, 0]).cleanedUp = true :=
  run_cleanup_on_success sampleExtOk sampleDty ["a", "b"] [0, 1] ⟨false⟩ 2 false "/w" [1, 0]
    [⟨"/w/a_xform-00000", "apply a to /w/a_xform-00000", ⟨5, 7⟩, false⟩,
     ⟨"/w/b_xform-00001", "apply b to /w/b_xform-00001", ⟨5, 7⟩, false⟩]
    rfl (by decide) (by decide)

/-- C10: when dtype preservation is enabled and the external call succeeds,
the per-volume worker leaves the output file exactly as the external call
wrote it (no rewrite) whenever the output dtype already equals the input
dtype, and only when they differ does it coerce the image to the input dtype
and persist it again. -/
theorem applytfms_dtype_preservation {X : Type}
    (ext : String → X → String → Except String (Image × String))
    (inDtype : String → ℕ) (in_file : String) (x : X) (index : ℕ) (newpath : String)
    (img : Image) (cmd : String)
    (hext : ext in_file x (fnamePresuffix in_file ("_xform-" ++ padZeros 5 index) newpath) =
      .ok (img, cmd)) :
    (inDtype in_file = img.dtype →
      applytfms ext inDtype (in_file, x, ⟨true⟩, index, newpath) =
        .ok ⟨fnamePresuffix in_file ("_xform-" ++ padZeros 5 index) newpath, cmd,
          img, false⟩) ∧
    (inDtype in_file ≠ img.dtype →
      applytfms ext inDtype (in_file, x, ⟨true⟩, index, newpath) =
        .ok ⟨fnamePresuffix in_file ("_xform-" ++ padZeros 5 index) newpath, cmd,
          ⟨inDtype in_file, img.payload⟩, true⟩) := by
  constructor <;> intro h <;> simp [applytfms, hext, h]

/-- Witness for C10 at a job whose output dtype already matches the input
dtype: the external file is returned unchanged with no rewrite. -/
theorem applytfms_dtype_preservation_witness :
    applytfms sampleExtOk sampleDty ("a", (0 : ℕ), ⟨true⟩, 0, "/w") =
      .ok ⟨fnamePresuffix "a" ("_xform-" ++ padZeros 5 0) "/w",
        "apply a to /w/a_xform-00000", ⟨5, 7⟩, false⟩ :=
  (applytfms_dtype_preservation sampleExtOk sampleDty "a" (0 : ℕ) 0 "/w" ⟨5, 7⟩
    "apply a to /w/a_xform-00000" (by decide)).1 rfl

end QsiprepItk
